import Mathlib

/-!
Shallow embedding of the Keithley 2600 VISA driver
(`src/pymodaq_plugins_keithley/hardware/keithley2600/keithley2600_VISADriver.py`).

The driver translates typed operations into TSP command strings and parses
single-line ASCII replies into numbers.  Pure command construction is embedded
as functions returning the list of command strings written; the sweep routine,
which also reads replies, is embedded as a function from the list of pending
reply lines to an outcome recording the commands written, the number of reads
performed, and either the parsed data or the raised error.

Numbers parsed out of replies are modelled exactly: Python's `float(token)`
on a decimal/scientific literal is embedded as a `PyFloat`, an integer
mantissa together with a power-of-ten exponent, whose denoted value is the
rational `m * 10 ^ z`.  Setpoint formatting (`f"{x:.6e}"`) is embedded over
`ℚ` as correctly rounded 7-significant-digit scientific notation with
round-half-to-even ties, matching CPython's correctly rounded float
formatting.
-/

namespace Keithley2600

/-- Character for a single decimal digit `d` (`0 ≤ d ≤ 9`). -/
def digitChar (d : Nat) : Char := Char.ofNat (48 + d)

/-- Decimal digit characters of a natural number, most significant first,
with explicit fuel so that the recursion is structural. -/
def natDigitsF : Nat → Nat → List Char
  | 0, _ => []
  | fuel + 1, n =>
      if n < 10 then [digitChar n]
      else natDigitsF fuel (n / 10) ++ [digitChar (n % 10)]

/-- Decimal digit characters of a natural number, most significant first. -/
def natDigits (n : Nat) : List Char := natDigitsF (n + 1) n

/-- Decimal string of a natural number, as produced by Python's `str`. -/
def natStr (n : Nat) : String := ⟨natDigits n⟩

/-- Value of a list of decimal digit characters, most significant first. -/
def natOfDigits (cs : List Char) : Nat :=
  cs.foldl (fun a c => 10 * a + (c.toNat - 48)) 0

/-- Number of decimal digits of a natural number. -/
def natLen (n : Nat) : Nat := (natDigits n).length

/-- Whitespace recognizer used when parsing a float out of a reply line
(Python's `float` ignores surrounding whitespace). -/
def isWS (c : Char) : Bool := c = ' ' || c = '\t' || c = '\n' || c = '\r'

/-- Strip whitespace from both ends of a character list. -/
def stripWS (cs : List Char) : List Char :=
  ((cs.dropWhile isWS).reverse.dropWhile isWS).reverse

/-- Exact value of a parsed Python float literal: the rational
`m * 10 ^ z`.  Python's `float()` rounds this to binary, but every claim
in scope concerns the denoted decimal value, which this captures exactly. -/
structure PyFloat where
  m : Int
  z : Int
deriving DecidableEq, Repr

/-- Rational value denoted by a parsed float literal. -/
def PyFloat.val (f : PyFloat) : ℚ := (f.m : ℚ) * (10 : ℚ) ^ f.z

/-- Python's `int()` applied to a float value: truncation toward zero.
`Int.div` is Lean's truncating division, matching Python's `int()`. -/
def pyTrunc (f : PyFloat) : Int :=
  if 0 ≤ f.z then f.m * (10 : Int) ^ f.z.toNat
  else Int.tdiv f.m ((10 : Int) ^ (-f.z).toNat)

/-- Digits of an exponent after its optional sign: at least one digit,
nothing trailing. -/
def parseExpDigits (neg : Bool) (ds0 : List Char) : Option Int :=
  let ds := ds0.takeWhile Char.isDigit
  if ds = [] ∨ ds0.dropWhile Char.isDigit ≠ [] then none
  else some (if neg then -(natOfDigits ds : Int) else (natOfDigits ds : Int))

/-- Exponent part of a float literal (after the `e`): optional sign then at
least one digit, nothing trailing. -/
def parseExpPart (cs : List Char) : Option Int :=
  match cs with
  | [] => none
  | c :: t =>
    if c = '+' then parseExpDigits false t
    else if c = '-' then parseExpDigits true t
    else parseExpDigits false (c :: t)

/-- Mantissa value: integer digits `ip`, fractional digits `fp`, exponent
`z` denote the literal `ip.fp e z`, i.e. mantissa digits `ip ++ fp` scaled
by `10 ^ (z - |fp|)`. -/
def mantissaFloat (ip fp : List Char) (z : Int) : PyFloat :=
  ⟨(natOfDigits (ip ++ fp) : Int), z - (fp.length : Int)⟩

/-- Finish parsing a float literal whose integer digits `ip`, fractional
digits `fp` and remaining characters `rest` (the exponent part, if any)
have been identified: at least one mantissa digit is required, then an
optional well-formed exponent part. -/
def parseMantissa (ip fp rest : List Char) : Option PyFloat :=
  if ip = [] ∧ fp = [] then none
  else
    match rest with
    | [] => some (mantissaFloat ip fp 0)
    | c :: t =>
      if c = 'e' ∨ c = 'E' then
        match parseExpPart t with
        | some z => some (mantissaFloat ip fp z)
        | none => none
      else none

/-- Unsigned float literal: `digits [. digits] [e[±]digits]`, with at least
one mantissa digit (this is the ASCII fragment of Python's `float()`
grammar, which is all the driver's replies use). -/
def parseUnsigned (cs : List Char) : Option PyFloat :=
  let ip := cs.takeWhile Char.isDigit
  match cs.dropWhile Char.isDigit with
  | [] => parseMantissa ip [] []
  | c :: t =>
    if c = '.' then parseMantissa ip (t.takeWhile Char.isDigit) (t.dropWhile Char.isDigit)
    else parseMantissa ip [] (c :: t)

/-- Signed float literal. -/
def parsePyFloatChars (cs : List Char) : Option PyFloat :=
  match cs with
  | [] => none
  | c :: t =>
    if c = '-' then (parseUnsigned t).map (fun f => ⟨-f.m, f.z⟩)
    else if c = '+' then parseUnsigned t
    else parseUnsigned (c :: t)

/-- Python `float(s)` on a character list: surrounding whitespace is
ignored, then a signed decimal/scientific literal is required. -/
def parsePyFloatL (cs : List Char) : Option PyFloat :=
  parsePyFloatChars (stripWS cs)

/-- Python `float(s)` on a string. -/
def parseFloat (s : String) : Option PyFloat := parsePyFloatL s.data

/-- Split a character list on the exact two-character separator `", "`,
leftmost-first, keeping empty pieces — the semantics of Python's
`table.split(", ")` in `table_to_np`. -/
def splitCS : List Char → List (List Char)
  | [] => [[]]
  | ',' :: ' ' :: rest => [] :: splitCS rest
  | c :: rest =>
    match splitCS rest with
    | [] => [[c]]
    | h :: t => (c :: h) :: t

/-- Parse every token; the first unparsable token makes the whole
conversion fail (the list comprehension in `table_to_np` raises at the
first bad `float(x)`). -/
def parseAll : List (List Char) → Option (List PyFloat)
  | [] => some []
  | s :: rest =>
    match parsePyFloatL s, parseAll rest with
    | some f, some fs => some (f :: fs)
    | _, _ => none

/-- Embedding of `table_to_np`: split the reply on the literal separator
`", "` and convert each token with `float`. -/
def table_to_np (table : String) : Option (List PyFloat) :=
  parseAll (splitCS table.data)

/-- Floor of a rational, computed from its reduced fraction (Euclidean
division by the positive denominator). -/
def ratFloor (q : ℚ) : Int := q.num / (q.den : Int)

/-- Round a rational to the nearest integer, ties to even — the rounding
CPython's correctly rounded float formatting (`%.6e`) performs. -/
def roundHalfEven (t : ℚ) : Int :=
  let f := ratFloor t
  let r := t - (f : ℚ)
  if r < 1 / 2 then f
  else if 1 / 2 < r then f + 1
  else if f % 2 = 0 then f else f + 1

/-- Decimal exponent of a positive rational `a`: the unique `e` with
`10 ^ e ≤ a < 10 ^ (e + 1)`, located through the digit counts of the
numerator and denominator. -/
def ratDecExp (a : ℚ) : Int :=
  let g : Int := (natLen a.num.toNat : Int) - (natLen a.den : Int)
  if (10 : ℚ) ^ g ≤ a then g else g - 1

/-- Sign, 7-digit mantissa and decimal exponent of `f"{x:.6e}"`: the
mantissa is `|x| / 10 ^ e` rounded half-even to 6 fractional digits, with
the carry `10.000000e(e)` renormalized to `1.000000e(e+1)`. -/
def format6eParts (x : ℚ) : Bool × Nat × Int :=
  if x = 0 then (false, 0, 0)
  else
    let e := ratDecExp |x|
    let n0 := roundHalfEven (|x| * (10 : ℚ) ^ ((6 : Int) - e))
    if n0 = 10 ^ 7 then (decide (x < 0), 10 ^ 6, e + 1)
    else (decide (x < 0), n0.toNat, e)

/-- Rational value denoted by the formatted string `f"{x:.6e}"`. -/
def format6eVal (x : ℚ) : ℚ :=
  let p := format6eParts x
  (if p.1 then -1 else 1) * (p.2.1 : ℚ) * (10 : ℚ) ^ (p.2.2 - 6)

/-- Mantissa characters `d.dddddd` of a 7-digit mantissa `n`. -/
def mantChars (n : Nat) : List Char :=
  match natDigits n with
  | [] => []
  | d :: rest => d :: '.' :: rest

/-- Exponent characters: mandatory sign, at least two digits. -/
def expChars (e : Int) : List Char :=
  (if e < 0 then '-' else '+') ::
    (if e.natAbs < 10 then '0' :: natDigits e.natAbs else natDigits e.natAbs)

/-- Characters of a formatted scientific-notation number. -/
def sciChars (sgn : Bool) (n : Nat) (e : Int) : List Char :=
  (if sgn then ['-'] else []) ++ mantChars n ++ 'e' :: expChars e

/-- Embedding of Python's `f"{x:.6e}"` over the exact value of the float
`x`: 6-fractional-digit scientific notation, correctly rounded. -/
def format6e (x : ℚ) : String :=
  if x = 0 then "0.000000e+00"
  else
    let p := format6eParts x
    ⟨sciChars p.1 p.2.1 p.2.2⟩

/-- ASCII uppercase of a string (Python's `str.upper` on the `smuX`
channel names appearing here). -/
def upperStr (s : String) : String := ⟨s.data.map Char.toUpper⟩

/-- Commands written by `autorange`. -/
def autorange (smu : String) : List String :=
  [smu ++ ".measure.autorangei = " ++ smu ++ ".AUTORANGE_ON",
   smu ++ ".measure.autorangev = " ++ smu ++ ".AUTORANGE_ON"]

/-- Commands written by `off`: one output-disable command, mode 2 when
`highz` is set (high impedance) and mode 0 otherwise; `highz` defaults to
`False` in the source. -/
def off (smu : String) (highz : Bool := false) : List String :=
  [smu ++ ".source.output = " ++ natStr (if highz then 2 else 0)]

/-- Commands written by `sourceI`: select the current source function,
enable the output, set the level formatted with `%.6e`. -/
def sourceI (smu : String) (isetpoint : ℚ) : List String :=
  [smu ++ ".source.func = 0",
   smu ++ ".source.output = 1",
   smu ++ ".source.leveli = " ++ format6e isetpoint]

/-- Commands written by `sourceV`: select the voltage source function,
enable the output, set the level formatted with `%.6e`. -/
def sourceV (smu : String) (vsetpoint : ℚ) : List String :=
  [smu ++ ".source.func = 1",
   smu ++ ".source.output = 1",
   smu ++ ".source.levelv = " ++ format6e vsetpoint]

/-- Command written by the `Ilimit` setter. -/
def IlimitSet (smu : String) (ilimit : ℚ) : List String :=
  [smu ++ ".source.limiti = " ++ format6e ilimit]

/-- Command written by the `Vlimit` setter. -/
def VlimitSet (smu : String) (vlimit : ℚ) : List String :=
  [smu ++ ".source.limitv = " ++ format6e vlimit]

/-- Errors the sweep can raise: `float()` failing on a reply
(`ParseError`), the explicit `ValueError` on a bad buffer status
(`SweepError`), and a missing reply (the transport would block: modelled
as a timeout). -/
inductive DriverError where
  | parseErr (raw : String)
  | sweepErr (raw : String)
  | timeoutErr
deriving DecidableEq, Repr

deriving instance DecidableEq for Except

/-- Outcome of one `sweepV_measureI` call: the commands written, the
number of reply lines read, and either the two parsed sequences or the
raised error. -/
structure SweepOutcome where
  writes : List String
  reads : Nat
  result : Except DriverError (List PyFloat × List PyFloat)
deriving Repr

/-- Embedding of `sweepV_measureI`: trigger the sweep, query the buffer
status and require `int(float(reply)) == 2`, then dump the source-value
and reading buffers over indices `1..npoints` and parse each dump with
`table_to_np`.  `replies` is the stream of pending reply lines; each
`_read()` consumes one. -/
def sweepV_measureI (smu : String) (startv stopv stime : ℚ) (npoints : Nat)
    (replies : List String) : SweepOutcome :=
  let w1 := "SweepVLinMeasureI(" ++ smu ++ ", " ++ format6e startv ++ ", " ++
    format6e stopv ++ ", " ++ format6e stime ++ ", " ++ natStr npoints ++ ")"
  let w2 := "print(status.measurement.buffer_available." ++ upperStr smu ++ ")"
  match replies with
  | [] => ⟨[w1, w2], 0, Except.error DriverError.timeoutErr⟩
  | r1 :: rest1 =>
    match parseFloat r1 with
    | none => ⟨[w1, w2], 1, Except.error (DriverError.parseErr r1)⟩
    | some f =>
      if pyTrunc f ≠ 2 then ⟨[w1, w2], 1, Except.error (DriverError.sweepErr r1)⟩
      else
        let w3 := "printbuffer(1, " ++ natStr npoints ++ ", " ++ smu ++
          ".nvbuffer1.sourcevalues)"
        match rest1 with
        | [] => ⟨[w1, w2, w3], 1, Except.error DriverError.timeoutErr⟩
        | r2 :: rest2 =>
          match table_to_np r2 with
          | none => ⟨[w1, w2, w3], 2, Except.error (DriverError.parseErr r2)⟩
          | some x =>
            let w4 := "printbuffer(1, " ++ natStr npoints ++ ", " ++ smu ++
              ".nvbuffer1.readings)"
            match rest2 with
            | [] => ⟨[w1, w2, w3, w4], 2, Except.error DriverError.timeoutErr⟩
            | r3 :: _ =>
              match table_to_np r3 with
              | none => ⟨[w1, w2, w3, w4], 3, Except.error (DriverError.parseErr r3)⟩
              | some y => ⟨[w1, w2, w3, w4], 3, Except.ok (x, y)⟩

/-- Matches resource addresses beginning with the USB bus prefix, as
`val.startswith("USB0")` does. -/
def usbMatch (v : String) : Bool := v.data.take 4 = ['U', 'S', 'B', '0']

/-- Embedding of `get_VISA_resources` applied to the enumerated resource
list: the loop scans for the first address starting with `"USB0"`,
removes its first occurrence and reinserts it at the front, then breaks;
with no match the list is returned unchanged. -/
def get_VISA_resources (resources : List String) : List String :=
  match resources.find? usbMatch with
  | some v => v :: resources.erase v
  | none => resources

/-- Source function selected on an SMU channel. -/
inductive SrcMode where
  | curr
  | volt
deriving DecidableEq, Repr

/-- Modelled from the spec: instrument-side state of one channel's source
output — the selected source function and whether the output is enabled.
The repository only writes command strings; the spec's channel state
machine (`OFF --sourceVoltage/sourceCurrent--> ON(mode=V|A) --off()-->
OFF`, with mode switches allowed while on) describes how the instrument,
which is not part of the repository, interprets them. -/
structure ChannelState where
  mode : SrcMode
  outputOn : Bool
deriving DecidableEq, Repr

/-- Modelled from the spec: effect of a single TSP command on the channel
state.  `source.func = 0/1` selects current/voltage, `source.output = 1`
enables the output, `source.output = 0/2` disables it, and any other
command (level and limit setpoints, measurements) leaves the source state
unchanged. -/
def applyCmd (smu : String) (st : ChannelState) (c : String) : ChannelState :=
  if c = smu ++ ".source.func = 0" then { st with mode := SrcMode.curr }
  else if c = smu ++ ".source.func = 1" then { st with mode := SrcMode.volt }
  else if c = smu ++ ".source.output = 1" then { st with outputOn := true }
  else if c = smu ++ ".source.output = 0" then { st with outputOn := false }
  else if c = smu ++ ".source.output = 2" then { st with outputOn := false }
  else st

/-- Effect of a command sequence on the channel state. -/
def applyCmds (smu : String) (st : ChannelState) (cs : List String) : ChannelState :=
  cs.foldl (applyCmd smu) st

lemma natDigitsF_fuel : ∀ f1 f2 n, n < f1 → n < f2 → natDigitsF f1 n = natDigitsF f2 n := by
  intro f1
  induction f1 with
  | zero => intro f2 n h1 _; omega
  | succ f ih =>
    intro f2 n h1 h2
    cases f2 with
    | zero => omega
    | succ g =>
      simp only [natDigitsF]
      by_cases hn : n < 10
      · simp [hn]
      · simp only [if_neg hn]
        rw [ih g (n / 10) (by omega) (by omega)]

lemma natDigits_lt (n : Nat) (h : n < 10) : natDigits n = [digitChar n] := by
  simp [natDigits, natDigitsF, h]

lemma natDigits_ge (n : Nat) (h : 10 ≤ n) :
    natDigits n = natDigits (n / 10) ++ [digitChar (n % 10)] := by
  have h10 : ¬ n < 10 := by omega
  simp only [natDigits, natDigitsF, if_neg h10]
  rw [natDigitsF_fuel n (n / 10 + 1) (n / 10) (by omega) (by omega)]
  simp only [natDigitsF]

lemma natOfDigits_foldl (a : Nat) (l : List Char) :
    l.foldl (fun a c => 10 * a + (c.toNat - 48)) a = a * 10 ^ l.length + natOfDigits l := by
  induction l generalizing a with
  | nil => simp [natOfDigits]
  | cons c t ih =>
    simp only [List.foldl_cons, natOfDigits, List.length_cons]
    rw [ih, ih (10 * 0 + (c.toNat - 48))]
    ring

lemma natOfDigits_append (a b : List Char) :
    natOfDigits (a ++ b) = natOfDigits a * 10 ^ b.length + natOfDigits b := by
  simp only [natOfDigits, List.foldl_append]
  rw [natOfDigits_foldl]
  rfl

lemma digitChar_toNat (d : Nat) (h : d < 10) : (digitChar d).toNat = 48 + d := by
  interval_cases d <;> decide

lemma digitChar_isDigit (d : Nat) (h : d < 10) : (digitChar d).isDigit = true := by
  interval_cases d <;> decide

lemma natOfDigits_single (d : Nat) (h : d < 10) : natOfDigits [digitChar d] = d := by
  simp [natOfDigits, digitChar_toNat d h]

lemma natOfDigits_natDigits (n : Nat) : natOfDigits (natDigits n) = n := by
  induction n using Nat.strong_induction_on with
  | _ n ih =>
    by_cases h : n < 10
    · rw [natDigits_lt n h, natOfDigits_single n h]
    · rw [natDigits_ge n (by omega), natOfDigits_append,
        ih (n / 10) (by omega), natOfDigits_single (n % 10) (by omega)]
      simp only [List.length_cons, List.length_nil, pow_one]
      omega

lemma mem_natDigits_isDigit (n : Nat) (c : Char) (hc : c ∈ natDigits n) :
    c.isDigit = true := by
  induction n using Nat.strong_induction_on with
  | _ n ih =>
    by_cases h : n < 10
    · rw [natDigits_lt n h] at hc
      simp only [List.mem_singleton] at hc
      exact hc ▸ digitChar_isDigit n h
    · rw [natDigits_ge n (by omega)] at hc
      rcases List.mem_append.1 hc with h1 | h1
      · exact ih (n / 10) (by omega) h1
      · simp only [List.mem_singleton] at h1
        exact h1 ▸ digitChar_isDigit (n % 10) (by omega)

lemma natDigits_ne_nil (n : Nat) : natDigits n ≠ [] := by
  by_cases h : n < 10
  · rw [natDigits_lt n h]; simp
  · rw [natDigits_ge n (by omega)]; simp

lemma natDigits_bounds (n : Nat) (h : 1 ≤ n) :
    10 ^ (natLen n - 1) ≤ n ∧ n < 10 ^ natLen n := by
  induction n using Nat.strong_induction_on with
  | _ n ih =>
    by_cases h10 : n < 10
    · have : natLen n = 1 := by simp [natLen, natDigits_lt n h10]
      rw [this]; omega
    · have hrec : natLen n = natLen (n / 10) + 1 := by
        simp [natLen, natDigits_ge n (by omega)]
      have hq : 1 ≤ n / 10 := by omega
      obtain ⟨hl, hu⟩ := ih (n / 10) (by omega) hq
      have hL : 1 ≤ natLen (n / 10) := by
        have := natDigits_ne_nil (n / 10)
        simp only [natLen]
        cases hnd : natDigits (n / 10) with
        | nil => exact absurd hnd this
        | cons a b => simp
      constructor
      · calc 10 ^ (natLen n - 1) = 10 * 10 ^ (natLen (n / 10) - 1) := by
              rw [hrec]
              have : natLen (n / 10) + 1 - 1 = (natLen (n / 10) - 1) + 1 := by omega
              rw [this, pow_succ]; ring
          _ ≤ 10 * (n / 10) := by omega
          _ ≤ n := Nat.mul_div_le n 10
      · calc n < 10 * (n / 10) + 10 := by
              have := Nat.mod_lt n (show 0 < 10 by omega)
              have := Nat.div_add_mod n 10
              omega
          _ ≤ 10 * 10 ^ natLen (n / 10) := by omega
          _ = 10 ^ natLen n := by rw [hrec, pow_succ]; ring

lemma natLen_eq (n : Nat) (k : Nat) (h1 : 10 ^ k ≤ n) (h2 : n < 10 ^ (k + 1)) :
    natLen n = k + 1 := by
  have hn : 1 ≤ n := le_trans (Nat.one_le_pow _ _ (by omega)) h1
  obtain ⟨hl, hu⟩ := natDigits_bounds n hn
  by_contra hne
  rcases Nat.lt_or_ge (natLen n) (k + 1) with hlt | hge
  · have : (10 : Nat) ^ natLen n ≤ 10 ^ k :=
      Nat.pow_le_pow_right (by omega) (by omega)
    omega
  · have hge' : k + 1 ≤ natLen n - 1 := by omega
    have : (10 : Nat) ^ (k + 1) ≤ 10 ^ (natLen n - 1) :=
      Nat.pow_le_pow_right (by omega) hge'
    omega

lemma takeWhile_all {α} (p : α → Bool) (l : List α) (h : ∀ c ∈ l, p c = true) :
    l.takeWhile p = l := by
  induction l with
  | nil => rfl
  | cons a t ih =>
    rw [List.takeWhile_cons, if_pos (h a (by simp))]
    rw [ih (fun c hc => h c (by simp [hc]))]

lemma dropWhile_all {α} (p : α → Bool) (l : List α) (h : ∀ c ∈ l, p c = true) :
    l.dropWhile p = [] := by
  induction l with
  | nil => rfl
  | cons a t ih =>
    rw [List.dropWhile_cons, if_pos (h a (by simp))]
    exact ih (fun c hc => h c (by simp [hc]))

lemma dropWhile_none {α} (p : α → Bool) (l : List α) (h : ∀ c ∈ l, p c = false) :
    l.dropWhile p = l := by
  cases l with
  | nil => rfl
  | cons a t => rw [List.dropWhile_cons, h a (by simp), if_neg (by simp)]

lemma takeWhile_append_not {α} (p : α → Bool) (l r : List α)
    (hl : ∀ c ∈ l, p c = true) (hr : ∀ h, r.head? = some h → p h = false) :
    (l ++ r).takeWhile p = l := by
  induction l with
  | nil =>
    simp only [List.nil_append]
    cases r with
    | nil => rfl
    | cons a t => rw [List.takeWhile_cons, hr a rfl, if_neg (by simp)]
  | cons a t ih =>
    rw [List.cons_append, List.takeWhile_cons, if_pos (hl a (by simp))]
    rw [ih (fun c hc => hl c (by simp [hc]))]

lemma dropWhile_append_not {α} (p : α → Bool) (l r : List α)
    (hl : ∀ c ∈ l, p c = true) (hr : ∀ h, r.head? = some h → p h = false) :
    (l ++ r).dropWhile p = r := by
  induction l with
  | nil =>
    simp only [List.nil_append]
    cases r with
    | nil => rfl
    | cons a t => rw [List.dropWhile_cons, hr a rfl, if_neg (by simp)]
  | cons a t ih =>
    rw [List.cons_append, List.dropWhile_cons, if_pos (hl a (by simp))]
    exact ih (fun c hc => hl c (by simp [hc]))

lemma isWS_eq_false_of_isDigit (c : Char) (h : c.isDigit = true) : isWS c = false := by
  by_cases h1 : c = ' '
  · subst h1; simp at h
  by_cases h2 : c = '\t'
  · subst h2; simp at h
  by_cases h3 : c = '\n'
  · subst h3; simp at h
  by_cases h4 : c = '\r'
  · subst h4; simp at h
  simp [isWS, h1, h2, h3, h4]

lemma isDigit_ne_signs (c : Char) (h : c.isDigit = true) :
    c ≠ '-' ∧ c ≠ '+' ∧ c ≠ '.' ∧ c ≠ 'e' := by
  refine ⟨?_, ?_, ?_, ?_⟩ <;> rintro rfl <;> simp at h

lemma stripWS_eq_self (l : List Char) (h : ∀ c ∈ l, isWS c = false) :
    stripWS l = l := by
  unfold stripWS
  rw [dropWhile_none _ _ h]
  rw [dropWhile_none _ _ (fun c hc => h c (List.mem_reverse.1 hc))]
  exact List.reverse_reverse l

lemma natOfDigits_cons_zero (l : List Char) :
    natOfDigits ('0' :: l) = natOfDigits l := by
  show List.foldl _ (10 * 0 + ('0'.toNat - 48)) l = List.foldl _ 0 l
  rw [show 10 * 0 + ('0'.toNat - 48) = 0 from by decide]

lemma natOfDigits_pad (a : Nat) :
    natOfDigits (if a < 10 then '0' :: natDigits a else natDigits a) = a := by
  by_cases h : a < 10 <;>
    simp [h, natOfDigits_cons_zero, natOfDigits_natDigits]

lemma pad_all_digits (a : Nat) (c : Char)
    (hc : c ∈ (if a < 10 then '0' :: natDigits a else natDigits a)) :
    c.isDigit = true := by
  by_cases h : a < 10 <;> simp only [h, if_true, if_false, reduceIte] at hc
  · rcases List.mem_cons.1 hc with rfl | hm
    · decide
    · exact mem_natDigits_isDigit a c hm
  · exact mem_natDigits_isDigit a c hc

lemma pad_ne_nil (a : Nat) :
    (if a < 10 then '0' :: natDigits a else natDigits a) ≠ [] := by
  by_cases h : a < 10 <;> simp [h, natDigits_ne_nil]

lemma parseExpDigits_all (neg : Bool) (ds : List Char) (hne : ds ≠ [])
    (hd : ∀ c ∈ ds, c.isDigit = true) :
    parseExpDigits neg ds =
      some (if neg then -(natOfDigits ds : Int) else (natOfDigits ds : Int)) := by
  simp only [parseExpDigits]
  rw [takeWhile_all _ _ hd, dropWhile_all _ _ hd]
  simp [hne]

lemma parseExpPart_expChars (e : Int) : parseExpPart (expChars e) = some e := by
  by_cases he : e < 0
  · have hx : expChars e = '-' :: (if e.natAbs < 10 then '0' :: natDigits e.natAbs
        else natDigits e.natAbs) := by simp [expChars, he]
    rw [hx]
    simp only [parseExpPart]
    rw [if_neg (show ¬('-' = '+') from by decide)]
    simp only [if_true]
    rw [parseExpDigits_all true _ (pad_ne_nil e.natAbs) (pad_all_digits e.natAbs)]
    simp only [natOfDigits_pad, if_true]
    congr 1
    rw [Int.ofNat_natAbs_of_nonpos (by omega : e ≤ 0), neg_neg]
  · have hx : expChars e = '+' :: (if e.natAbs < 10 then '0' :: natDigits e.natAbs
        else natDigits e.natAbs) := by simp [expChars, he]
    rw [hx]
    simp only [parseExpPart]
    simp only [if_true]
    rw [parseExpDigits_all false _ (pad_ne_nil e.natAbs) (pad_all_digits e.natAbs)]
    simp only [natOfDigits_pad, if_false, Bool.false_eq_true]
    congr 1
    exact Int.natAbs_of_nonneg (by omega)

lemma mantChars_shape (n : Nat) : ∃ d rest, natDigits n = d :: rest ∧
    mantChars n = d :: '.' :: rest ∧ d.isDigit = true := by
  cases hnd : natDigits n with
  | nil => exact absurd hnd (natDigits_ne_nil n)
  | cons a b =>
    refine ⟨a, b, rfl, by simp [mantChars, hnd], ?_⟩
    exact mem_natDigits_isDigit n a (by rw [hnd]; simp)

lemma parseUnsigned_sci (n : Nat) (e : Int) (h1 : 10 ^ 6 ≤ n) (h2 : n < 10 ^ 7) :
    parseUnsigned (mantChars n ++ 'e' :: expChars e) = some ⟨(n : Int), e - 6⟩ := by
  obtain ⟨d, rest, hn, hmant, hd⟩ := mantChars_shape n
  have hrest : ∀ c ∈ rest, c.isDigit = true := fun c hc =>
    mem_natDigits_isDigit n c (by rw [hn]; simp [hc])
  have hlen : rest.length = 6 := by
    have h7 := natLen_eq n 6 h1 h2
    rw [natLen, hn] at h7
    simp at h7
    omega
  rw [hmant]
  simp only [List.cons_append]
  simp only [parseUnsigned]
  rw [List.takeWhile_cons, if_pos hd, List.takeWhile_cons,
    if_neg (by decide : ¬(Char.isDigit '.' = true))]
  rw [List.dropWhile_cons, if_pos hd, List.dropWhile_cons,
    if_neg (by decide : ¬(Char.isDigit '.' = true))]
  simp only [if_true, reduceIte]
  rw [takeWhile_append_not _ rest ('e' :: expChars e) hrest
    (by intro h hh; simp at hh; rw [← hh]; decide)]
  rw [dropWhile_append_not _ rest ('e' :: expChars e) hrest
    (by intro h hh; simp at hh; rw [← hh]; decide)]
  simp only [parseMantissa]
  rw [if_neg (by simp)]
  simp only [true_or, if_true]
  rw [parseExpPart_expChars]
  simp only [mantissaFloat, List.singleton_append, ← hn, natOfDigits_natDigits, hlen]
  norm_num

lemma parsePyFloatChars_sci (sgn : Bool) (n : Nat) (e : Int)
    (h1 : 10 ^ 6 ≤ n) (h2 : n < 10 ^ 7) :
    parsePyFloatChars (sciChars sgn n e) =
      some ⟨(if sgn then -(n : Int) else (n : Int)), e - 6⟩ := by
  obtain ⟨d, rest, hn, hmant, hd⟩ := mantChars_shape n
  cases sgn with
  | true =>
    have hx : sciChars true n e = '-' :: (mantChars n ++ 'e' :: expChars e) := by
      simp [sciChars]
    rw [hx]
    simp only [parsePyFloatChars]
    simp only [if_true]
    rw [parseUnsigned_sci n e h1 h2]
    rfl
  | false =>
    have hx : sciChars false n e = mantChars n ++ 'e' :: expChars e := by
      simp [sciChars]
    rw [hx, hmant]
    simp only [List.cons_append]
    simp only [parsePyFloatChars]
    obtain ⟨hd1, hd2, _, _⟩ := isDigit_ne_signs d hd
    rw [if_neg hd1, if_neg hd2]
    have := parseUnsigned_sci n e h1 h2
    rw [hmant] at this
    simp only [List.cons_append] at this
    rw [this]
    simp

lemma sciChars_no_WS (sgn : Bool) (n : Nat) (e : Int) :
    ∀ c ∈ sciChars sgn n e, isWS c = false := by
  obtain ⟨d, rest, hn, hmant, hd⟩ := mantChars_shape n
  intro c hc
  simp only [sciChars, hmant, List.mem_append, List.mem_cons] at hc
  rcases hc with (hs | hm) | he2
  · cases sgn with
    | true => simp at hs; rw [hs]; decide
    | false => simp at hs
  · rcases hm with hm | hm | hm
    · rw [hm]; exact isWS_eq_false_of_isDigit d hd
    · rw [hm]; decide
    · exact isWS_eq_false_of_isDigit c (mem_natDigits_isDigit n c (by rw [hn]; simp [hm]))
  · rcases he2 with he2 | he2
    · rw [he2]; decide
    · simp only [expChars, List.mem_cons] at he2
      rcases he2 with he2 | he2
      · rw [he2]
        rcases lt_or_ge e 0 with h | h
        · rw [if_pos h]; decide
        · rw [if_neg (not_lt.2 h)]; decide
      · exact isWS_eq_false_of_isDigit c (pad_all_digits e.natAbs c he2)

lemma parsePyFloatL_sci (sgn : Bool) (n : Nat) (e : Int)
    (h1 : 10 ^ 6 ≤ n) (h2 : n < 10 ^ 7) :
    parsePyFloatL (sciChars sgn n e) =
      some ⟨(if sgn then -(n : Int) else (n : Int)), e - 6⟩ := by
  unfold parsePyFloatL
  rw [stripWS_eq_self _ (sciChars_no_WS sgn n e), parsePyFloatChars_sci sgn n e h1 h2]

lemma natLen_pos (n : Nat) : 1 ≤ natLen n := by
  have := natDigits_ne_nil n
  simp only [natLen]
  cases h : natDigits n with
  | nil => exact absurd h this
  | cons a b => simp

lemma ratFloor_eq (q : ℚ) : ratFloor q = ⌊q⌋ := Rat.floor_def.symm

lemma roundHalfEven_sub_le (t : ℚ) : |(roundHalfEven t : ℚ) - t| ≤ 1 / 2 := by
  have h1 : (⌊t⌋ : ℚ) ≤ t := Int.floor_le t
  have h2 : t < ⌊t⌋ + 1 := Int.lt_floor_add_one t
  simp only [roundHalfEven, ratFloor_eq]
  split_ifs with ha hb hc
  · rw [abs_le]; constructor <;> linarith
  · rw [abs_le]; push_cast; constructor <;> linarith
  · rw [abs_le]; constructor <;> linarith
  · rw [abs_le]; push_cast; constructor <;> linarith

lemma ratDecExp_correct (a : ℚ) (ha : 0 < a) :
    (10 : ℚ) ^ ratDecExp a ≤ a ∧ a < (10 : ℚ) ^ (ratDecExp a + 1) := by
  have hnum : 0 < a.num := Rat.num_pos.2 ha
  set p := a.num.toNat with hpdef
  set q := a.den with hqdef
  have hp : 1 ≤ p := by omega
  have hq : 1 ≤ q := a.pos
  obtain ⟨hpl, hpu⟩ := natDigits_bounds p hp
  obtain ⟨hql, hqu⟩ := natDigits_bounds q hq
  have hA := natLen_pos p
  have hB := natLen_pos q
  have hq0 : (0 : ℚ) < (q : ℚ) := by exact_mod_cast hq
  have hax : a = (p : ℚ) / (q : ℚ) := by
    rw [hpdef, hqdef]
    rw [show ((a.num.toNat : ℕ) : ℚ) = ((a.num : ℤ) : ℚ) by
      rw [← Int.cast_natCast, Int.toNat_of_nonneg (le_of_lt hnum)]]
    exact (Rat.num_div_den a).symm
  have hten : (10 : ℚ) ≠ 0 := by norm_num
  have hpu' : (p : ℚ) < (10 : ℚ) ^ (natLen p : Int) := by
    rw [zpow_natCast]; exact_mod_cast hpu
  have hpl' : (10 : ℚ) ^ ((natLen p : Int) - 1) ≤ (p : ℚ) := by
    rw [show (natLen p : Int) - 1 = ((natLen p - 1 : ℕ) : Int) by omega, zpow_natCast]
    exact_mod_cast hpl
  have hqu' : (q : ℚ) < (10 : ℚ) ^ (natLen q : Int) := by
    rw [zpow_natCast]; exact_mod_cast hqu
  have hql' : (10 : ℚ) ^ ((natLen q : Int) - 1) ≤ (q : ℚ) := by
    rw [show (natLen q : Int) - 1 = ((natLen q - 1 : ℕ) : Int) by omega, zpow_natCast]
    exact_mod_cast hql
  set g : Int := (natLen p : Int) - (natLen q : Int) with hgdef
  have hupper : a < (10 : ℚ) ^ (g + 1) := by
    rw [hax, div_lt_iff₀ hq0]
    calc (p : ℚ) < (10 : ℚ) ^ (natLen p : Int) := hpu'
      _ = (10 : ℚ) ^ (g + 1) * (10 : ℚ) ^ ((natLen q : Int) - 1) := by
          rw [← zpow_add₀ hten]; congr 1; omega
      _ ≤ (10 : ℚ) ^ (g + 1) * (q : ℚ) := by
          apply mul_le_mul_of_nonneg_left hql' (by positivity)
  have hlower : (10 : ℚ) ^ (g - 1) < a := by
    rw [hax, lt_div_iff₀ hq0]
    calc (10 : ℚ) ^ (g - 1) * (q : ℚ)
        < (10 : ℚ) ^ (g - 1) * (10 : ℚ) ^ (natLen q : Int) := by
          apply mul_lt_mul_of_pos_left hqu' (by positivity)
      _ = (10 : ℚ) ^ ((natLen p : Int) - 1) := by
          rw [← zpow_add₀ hten]; congr 1; omega
      _ ≤ (p : ℚ) := hpl'
  simp only [ratDecExp, ← hpdef, ← hqdef, ← hgdef]
  split_ifs with h
  · exact ⟨h, hupper⟩
  · refine ⟨le_of_lt hlower, ?_⟩
    rw [sub_add_cancel]
    exact not_le.1 h

lemma format6eParts_spec (x : ℚ) (hx : x ≠ 0) :
    ∃ n : ℕ, ∃ e : Int,
      format6eParts x = (decide (x < 0), n, e) ∧
      10 ^ 6 ≤ n ∧ n < 10 ^ 7 ∧
      (n : ℚ) * (10 : ℚ) ^ (e - 6) =
        (roundHalfEven (|x| * (10 : ℚ) ^ ((6 : Int) - ratDecExp |x|)) : ℚ) *
          (10 : ℚ) ^ (ratDecExp |x| - 6) := by
  have hten : (10 : ℚ) ≠ 0 := by norm_num
  have ha : 0 < |x| := abs_pos.2 hx
  obtain ⟨hel, heu⟩ := ratDecExp_correct |x| ha
  set ep := ratDecExp |x| with hep
  set t := |x| * (10 : ℚ) ^ ((6 : Int) - ep) with htdef
  have hp10 : (0 : ℚ) < (10 : ℚ) ^ ((6 : Int) - ep) := by positivity
  have ht1 : (10 : ℚ) ^ (6 : Int) ≤ t := by
    rw [htdef]
    calc (10 : ℚ) ^ (6 : Int) = (10 : ℚ) ^ ep * (10 : ℚ) ^ ((6 : Int) - ep) := by
          rw [← zpow_add₀ hten]; congr 1; ring
      _ ≤ |x| * (10 : ℚ) ^ ((6 : Int) - ep) :=
          mul_le_mul_of_nonneg_right hel (le_of_lt hp10)
  have ht2 : t < (10 : ℚ) ^ (7 : Int) := by
    rw [htdef]
    calc |x| * (10 : ℚ) ^ ((6 : Int) - ep)
        < (10 : ℚ) ^ (ep + 1) * (10 : ℚ) ^ ((6 : Int) - ep) :=
          mul_lt_mul_of_pos_right heu hp10
      _ = (10 : ℚ) ^ (7 : Int) := by rw [← zpow_add₀ hten]; congr 1; ring
  set n0 := roundHalfEven t with hn0def
  have habs := roundHalfEven_sub_le t
  rw [abs_le] at habs
  have h6q : (10 : ℚ) ^ (6 : Int) = 1000000 := by norm_num
  have h7q : (10 : ℚ) ^ (7 : Int) = 10000000 := by norm_num
  have hn0l : (1000000 : Int) ≤ n0 := by
    have hq : ((1000000 - 1 : Int) : ℚ) < (n0 : ℚ) := by push_cast; linarith
    have := (by exact_mod_cast hq : (1000000 - 1 : Int) < n0)
    omega
  have hn0u : n0 ≤ (10000000 : Int) := by
    have hq : (n0 : ℚ) < ((10000000 + 1 : Int) : ℚ) := by push_cast; linarith
    have := (by exact_mod_cast hq : n0 < (10000000 + 1 : Int))
    omega
  simp only [format6eParts, if_neg hx, ← hep, ← htdef, ← hn0def]
  split_ifs with hcar
  · refine ⟨10 ^ 6, ep + 1, rfl, le_refl _, by norm_num, ?_⟩
    rw [hcar]
    have l1 : ((10 ^ 6 : ℕ) : ℚ) = (10 : ℚ) ^ (6 : Int) := by norm_num
    have l2 : (((10 ^ 7 : Int)) : ℚ) = (10 : ℚ) ^ (7 : Int) := by norm_num
    rw [l1, l2, ← zpow_add₀ hten, ← zpow_add₀ hten]
    congr 1
    ring
  · refine ⟨n0.toNat, ep, rfl, ?_, ?_, ?_⟩
    · rw [show (10 : ℕ) ^ 6 = 1000000 from by norm_num]
      omega
    · rw [show (10 : ℕ) ^ 7 = 10000000 from by norm_num]
      rw [show (10 : Int) ^ 7 = 10000000 from by norm_num] at hcar
      omega
    · congr 2
      rw [← Int.cast_natCast, Int.toNat_of_nonneg (by omega)]

lemma parseFloat_mk (l : List Char) : parseFloat ⟨l⟩ = parsePyFloatL l := rfl

lemma parseFloat_format6e (x : ℚ) :
    ∃ f : PyFloat, parseFloat (format6e x) = some f ∧ f.val = format6eVal x := by
  by_cases hx : x = 0
  · subst hx
    refine ⟨⟨0, -6⟩, by decide, ?_⟩
    simp [PyFloat.val, format6eVal, format6eParts]
  · obtain ⟨n, e, hparts, h1, h2, _⟩ := format6eParts_spec x hx
    refine ⟨⟨if decide (x < 0) then -(n : Int) else (n : Int), e - 6⟩, ?_, ?_⟩
    · rw [format6e, if_neg hx, hparts]
      exact parsePyFloatL_sci (decide (x < 0)) n e h1 h2
    · simp only [PyFloat.val, format6eVal, hparts]
      cases h : decide (x < 0)
      · simp only [Bool.false_eq_true, if_false]
        push_cast
        ring
      · simp only [if_true]
        push_cast
        ring

lemma format6eVal_close (x : ℚ) : |format6eVal x - x| ≤ |x| / 2000000 := by
  by_cases hx : x = 0
  · subst hx
    simp [format6eVal, format6eParts]
  · have hten : (10 : ℚ) ≠ 0 := by norm_num
    obtain ⟨n, e0, hparts, _, _, hval⟩ := format6eParts_spec x hx
    have ha : 0 < |x| := abs_pos.2 hx
    obtain ⟨hel, _⟩ := ratDecExp_correct |x| ha
    set ep := ratDecExp |x| with hep
    set t := |x| * (10 : ℚ) ^ ((6 : Int) - ep) with htdef
    have habs := roundHalfEven_sub_le t
    have hp10 : (0 : ℚ) < (10 : ℚ) ^ (ep - 6) := by positivity
    have hta : t * (10 : ℚ) ^ (ep - 6) = |x| := by
      rw [htdef, mul_assoc, ← zpow_add₀ hten]
      norm_num
    have hbound : abs ((roundHalfEven t : ℚ) * (10 : ℚ) ^ (ep - 6) - |x|) ≤ |x| / 2000000 := by
      have key : (roundHalfEven t : ℚ) * (10 : ℚ) ^ (ep - 6) - |x| =
          ((roundHalfEven t : ℚ) - t) * (10 : ℚ) ^ (ep - 6) := by
        rw [sub_mul, hta]
      rw [key, abs_mul, abs_of_pos hp10]
      calc |(roundHalfEven t : ℚ) - t| * (10 : ℚ) ^ (ep - 6)
          ≤ (1 / 2) * (10 : ℚ) ^ (ep - 6) :=
            mul_le_mul_of_nonneg_right habs (le_of_lt hp10)
        _ ≤ |x| / 2000000 := by
            have hsplit : (10 : ℚ) ^ (ep - 6) = (10 : ℚ) ^ ep * (10 : ℚ) ^ (-(6 : Int)) := by
              rw [← zpow_add₀ hten, sub_eq_add_neg]
            have h6 : (10 : ℚ) ^ (-(6 : Int)) = 1 / 1000000 := by norm_num
            rw [hsplit, h6]
            nlinarith [hel]
    have hvform : format6eVal x =
        (if decide (x < 0) = true then -1 else 1) * ((n : ℚ) * (10 : ℚ) ^ (e0 - 6)) := by
      simp only [format6eVal, hparts]
      ring
    rw [hvform, hval]
    by_cases hneg : x < 0
    · have hd : decide (x < 0) = true := by simp [hneg]
      rw [hd, if_pos rfl]
      have hxa : |x| = -x := abs_of_neg hneg
      have : -1 * ((roundHalfEven t : ℚ) * (10 : ℚ) ^ (ep - 6)) - x =
          -((roundHalfEven t : ℚ) * (10 : ℚ) ^ (ep - 6) - |x|) := by
        rw [hxa]; ring
      rw [this, abs_neg]
      exact hbound
    · have hd : decide (x < 0) = false := by simp [hneg]
      rw [hd]
      simp only [Bool.false_eq_true, if_false]
      have hxa : |x| = x := abs_of_nonneg (not_lt.1 hneg)
      have : 1 * ((roundHalfEven t : ℚ) * (10 : ℚ) ^ (ep - 6)) - x =
          (roundHalfEven t : ℚ) * (10 : ℚ) ^ (ep - 6) - |x| := by
        rw [hxa]; ring
      rw [this]
      exact hbound

lemma decExp_unique (x : ℚ) (hx : 0 < x) (e : Int)
    (h1 : (10 : ℚ) ^ e ≤ x) (h2 : x < (10 : ℚ) ^ (e + 1)) : ratDecExp x = e := by
  obtain ⟨hel, heu⟩ := ratDecExp_correct x hx
  by_contra hne
  rcases lt_or_gt_of_ne hne with hlt | hgt
  · have : (10 : ℚ) ^ (ratDecExp x + 1) ≤ (10 : ℚ) ^ e :=
      zpow_le_zpow_right₀ (by norm_num) (by omega)
    linarith
  · have : (10 : ℚ) ^ (e + 1) ≤ (10 : ℚ) ^ ratDecExp x :=
      zpow_le_zpow_right₀ (by norm_num) (by omega)
    linarith

lemma roundHalfEven_intCast (m : Int) : roundHalfEven (m : ℚ) = m := by
  simp only [roundHalfEven, ratFloor_eq, Int.floor_intCast, sub_self]
  norm_num

lemma format6eParts_exact (n : ℕ) (e : Int) (h1 : 10 ^ 6 ≤ n) (h2 : n < 10 ^ 7) :
    format6eParts ((n : ℚ) * (10 : ℚ) ^ (e - 6)) = (false, n, e) := by
  have hten : (10 : ℚ) ≠ 0 := by norm_num
  have hn0 : (0 : ℚ) < (n : ℚ) := by
    have : (0 : ℕ) < n := lt_of_lt_of_le (by norm_num) h1
    exact_mod_cast this
  set x : ℚ := (n : ℚ) * (10 : ℚ) ^ (e - 6) with hxdef
  have hxpos : 0 < x := mul_pos hn0 (by positivity)
  have hxabs : |x| = x := abs_of_pos hxpos
  have hsand1 : (10 : ℚ) ^ e ≤ x := by
    rw [hxdef]
    calc (10 : ℚ) ^ e = (10 : ℚ) ^ (6 : Int) * (10 : ℚ) ^ (e - 6) := by
          rw [← zpow_add₀ hten]; congr 1; ring
      _ ≤ (n : ℚ) * (10 : ℚ) ^ (e - 6) := by
          apply mul_le_mul_of_nonneg_right _ (by positivity)
          rw [show (10 : ℚ) ^ (6 : Int) = ((10 ^ 6 : ℕ) : ℚ) from by norm_num]
          exact_mod_cast h1
  have hsand2 : x < (10 : ℚ) ^ (e + 1) := by
    rw [hxdef]
    calc (n : ℚ) * (10 : ℚ) ^ (e - 6) < (10 : ℚ) ^ (7 : Int) * (10 : ℚ) ^ (e - 6) := by
          apply mul_lt_mul_of_pos_right _ (by positivity)
          rw [show (10 : ℚ) ^ (7 : Int) = ((10 ^ 7 : ℕ) : ℚ) from by norm_num]
          exact_mod_cast h2
      _ = (10 : ℚ) ^ (e + 1) := by rw [← zpow_add₀ hten]; congr 1; ring
  have hexp : ratDecExp |x| = e := by
    rw [hxabs]; exact decExp_unique x hxpos e hsand1 hsand2
  have ht : |x| * (10 : ℚ) ^ ((6 : Int) - e) = (n : ℚ) := by
    rw [hxabs, hxdef, mul_assoc, ← zpow_add₀ hten]
    rw [show e - 6 + (6 - e) = 0 from by ring, zpow_zero, mul_one]
  have hx0 : x ≠ 0 := ne_of_gt hxpos
  simp only [format6eParts, if_neg hx0, hexp, ht]
  rw [show ((n : ℕ) : ℚ) = ((n : Int) : ℚ) from by push_cast; rfl]
  rw [roundHalfEven_intCast]
  have hne7 : ((n : Int)) ≠ 10 ^ 7 := by
    have : ((n : Int)) < 10 ^ 7 := by exact_mod_cast h2
    omega
  rw [if_neg hne7]
  have hd : decide (x < 0) = false := by
    simp [not_lt.2 (le_of_lt hxpos)]
  rw [hd]
  simp

lemma format6e_exact (n : ℕ) (e : Int) (h1 : 10 ^ 6 ≤ n) (h2 : n < 10 ^ 7) :
    format6e ((n : ℚ) * (10 : ℚ) ^ (e - 6)) = ⟨sciChars false n e⟩ := by
  have hn0 : (0 : ℚ) < (n : ℚ) := by
    have : (0 : ℕ) < n := lt_of_lt_of_le (by norm_num) h1
    exact_mod_cast this
  have hx0 : (n : ℚ) * (10 : ℚ) ^ (e - 6) ≠ 0 :=
    ne_of_gt (mul_pos hn0 (by positivity))
  rw [format6e, if_neg hx0, format6eParts_exact n e h1 h2]

lemma data_append (s t : String) : (s ++ t).data = s.data ++ t.data := by
  cases s; cases t; rfl

lemma strAppend_assoc (a b c : String) : a ++ b ++ c = a ++ (b ++ c) := by
  cases a with
  | mk la =>
    cases b with
    | mk lb =>
      cases c with
      | mk lc =>
        show String.mk (la ++ lb ++ lc) = String.mk (la ++ (lb ++ lc))
        rw [List.append_assoc]

lemma strAppend_right_inj (s : String) (a b : String) (h : s ++ a = s ++ b) : a = b := by
  cases s with
  | mk ls =>
    cases a with
    | mk la =>
      cases b with
      | mk lb =>
        injection h with h2
        exact congrArg String.mk (List.append_cancel_left h2)

lemma take_append_left (l1 l2 : List Char) (k : Nat) (h : k ≤ l1.length) :
    (l1 ++ l2).take k = l1.take k := by
  induction l1 generalizing k with
  | nil =>
    simp only [List.length_nil, Nat.le_zero] at h
    simp [h]
  | cons a t ih =>
    cases k with
    | zero => simp
    | succ m =>
      simp only [List.cons_append, List.take_succ_cons]
      rw [ih m (by simpa using h)]

lemma strAppend_ne_of_take9 (p r q : String) (hp : 9 ≤ p.data.length)
    (h : p.data.take 9 ≠ q.data.take 9) : p ++ r ≠ q := by
  intro he
  apply h
  rw [← he, data_append, take_append_left _ _ 9 hp]

lemma applyCmd_of_ne (smu : String) (st : ChannelState) (c : String)
    (h0 : c ≠ smu ++ ".source.func = 0") (h1 : c ≠ smu ++ ".source.func = 1")
    (h2 : c ≠ smu ++ ".source.output = 1") (h3 : c ≠ smu ++ ".source.output = 0")
    (h4 : c ≠ smu ++ ".source.output = 2") : applyCmd smu st c = st := by
  simp [applyCmd, h0, h1, h2, h3, h4]

lemma applyCmd_setter (smu : String) (st : ChannelState) (pre fmt : String)
    (hp : 9 ≤ pre.data.length) (hpre : pre.data.take 9 = ['.', 's', 'o', 'u', 'r', 'c', 'e', '.', 'l']) :
    applyCmd smu st (smu ++ pre ++ fmt) = st := by
  rw [strAppend_assoc]
  apply applyCmd_of_ne <;>
    intro he <;>
    have h2 := strAppend_right_inj smu _ _ he <;>
    revert h2 <;>
    apply strAppend_ne_of_take9 pre fmt _ hp <;>
    rw [hpre] <;>
    decide

lemma applyCmd_func0 (smu : String) (st : ChannelState) :
    applyCmd smu st (smu ++ ".source.func = 0") = { st with mode := SrcMode.curr } := by
  simp [applyCmd]

lemma applyCmd_func1 (smu : String) (st : ChannelState) :
    applyCmd smu st (smu ++ ".source.func = 1") = { st with mode := SrcMode.volt } := by
  have h0 : smu ++ ".source.func = 1" ≠ smu ++ ".source.func = 0" := by
    intro he
    exact absurd (strAppend_right_inj smu _ _ he) (by decide)
  simp [applyCmd, h0]

lemma applyCmd_output1 (smu : String) (st : ChannelState) :
    applyCmd smu st (smu ++ ".source.output = 1") = { st with outputOn := true } := by
  have h0 : smu ++ ".source.output = 1" ≠ smu ++ ".source.func = 0" := by
    intro he
    exact absurd (strAppend_right_inj smu _ _ he) (by decide)
  have h1 : smu ++ ".source.output = 1" ≠ smu ++ ".source.func = 1" := by
    intro he
    exact absurd (strAppend_right_inj smu _ _ he) (by decide)
  simp [applyCmd, h0, h1]

lemma parseAll_none (ts : List (List Char)) (h : ∃ t ∈ ts, parsePyFloatL t = none) :
    parseAll ts = none := by
  induction ts with
  | nil => simp at h
  | cons a tl ih =>
    obtain ⟨t, ht, hn⟩ := h
    simp only [parseAll]
    rcases List.mem_cons.1 ht with rfl | hm
    · rw [hn]
    · rw [ih ⟨t, hm, hn⟩]
      cases parsePyFloatL a <;> rfl

lemma parseAll_some_iff (ts : List (List Char)) (fs : List PyFloat) :
    parseAll ts = some fs ↔ ts.map parsePyFloatL = fs.map some := by
  induction ts generalizing fs with
  | nil =>
    simp only [parseAll, List.map_nil]
    constructor
    · intro h
      cases fs with
      | nil => simp
      | cons f ft => simp at h
    · intro h
      cases fs with
      | nil => rfl
      | cons f ft => simp at h
  | cons a tl ih =>
    simp only [parseAll, List.map_cons]
    cases hpa : parsePyFloatL a with
    | none =>
      constructor
      · intro h
        cases hr : parseAll tl <;> rw [hr] at h <;> simp at h
      · intro h
        cases fs with
        | nil => simp at h
        | cons f ft => simp at h
    | some g =>
      constructor
      · intro h
        cases hr : parseAll tl with
        | none => rw [hr] at h; simp at h
        | some gs =>
          rw [hr] at h
          simp only [Option.some.injEq] at h
          subst h
          simp only [List.map_cons, List.cons.injEq]
          exact ⟨trivial, (ih gs).1 hr⟩
      · intro h
        cases fs with
        | nil => simp at h
        | cons f ft =>
          simp only [List.map_cons, List.cons.injEq, Option.some.injEq] at h
          obtain ⟨hf, hrest⟩ := h
          rw [(ih ft).2 hrest, hf]

lemma pyTrunc_of_val_two (f : PyFloat) (h : f.val = 2) : pyTrunc f = 2 := by
  have hten : (10 : ℚ) ≠ 0 := by norm_num
  simp only [PyFloat.val] at h
  by_cases hz : 0 ≤ f.z
  · have hcast : ((f.m * 10 ^ f.z.toNat : Int) : ℚ) = ((2 : Int) : ℚ) := by
      push_cast
      rw [← h]
      congr 1
      rw [← zpow_natCast, Int.toNat_of_nonneg hz]
    have : f.m * 10 ^ f.z.toNat = 2 := by exact_mod_cast hcast
    simp [pyTrunc, hz, this]
  · set k := (-f.z).toNat with hk
    have hzk : -f.z = (k : Int) := by omega
    have hm : (f.m : ℚ) = 2 * (10 : ℚ) ^ (-f.z) := by
      have h2 := congrArg (fun y => y * (10 : ℚ) ^ (-f.z)) h
      simp only at h2
      rw [mul_assoc, ← zpow_add₀ hten, add_neg_cancel, zpow_zero, mul_one] at h2
      exact h2
    have hcast : ((f.m : Int) : ℚ) = ((2 * 10 ^ k : Int) : ℚ) := by
      rw [hm, hzk, zpow_natCast]
      push_cast
      ring
    have hmz : f.m = 2 * 10 ^ k := by exact_mod_cast hcast
    simp only [pyTrunc, if_neg hz, ← hk, hmz]
    exact Int.mul_tdiv_cancel 2 (by positivity)

/-- C1: after the sweep trigger, `sweepV_measureI` reads one status line and
checks `int(float(reply)) == 2`.  A reply denoting the value 2 lets the call
proceed to the buffer dumps (a third command is written); the replies `"0"`,
`"1"`, `"3"` raise the status `ValueError` (`SweepError`), and a reply that
`float()` cannot parse raises `ValueError` from `float` (`ParseError`); in
both cases the call returns no sequences, only the error. -/
theorem C1_sweep_status_check (smu : String) (startv stopv stime : ℚ) (npoints : Nat)
    (r : String) (rest : List String) :
    (∀ f : PyFloat, parseFloat r = some f → f.val = 2 →
      3 ≤ (sweepV_measureI smu startv stopv stime npoints (r :: rest)).writes.length) ∧
    (r = "0" ∨ r = "1" ∨ r = "3" →
      (sweepV_measureI smu startv stopv stime npoints (r :: rest)).result =
        Except.error (DriverError.sweepErr r)) ∧
    (parseFloat r = none →
      (sweepV_measureI smu startv stopv stime npoints (r :: rest)).result =
        Except.error (DriverError.parseErr r)) := by
  refine ⟨?_, ?_, ?_⟩
  · intro f hf hval
    simp only [sweepV_measureI]
    rw [hf]
    dsimp only
    rw [if_neg (not_ne_iff.2 (pyTrunc_of_val_two f hval))]
    cases rest with
    | nil => simp
    | cons r2 rest2 =>
      split
      · simp
      · (repeat' split) <;> simp
  · intro h
    rcases h with rfl | rfl | rfl
    · simp only [sweepV_measureI]
      rw [show parseFloat "0" = some ⟨0, 0⟩ from by decide]
      dsimp only
      rw [if_pos (by decide : pyTrunc (⟨0, 0⟩ : PyFloat) ≠ 2)]
    · simp only [sweepV_measureI]
      rw [show parseFloat "1" = some ⟨1, 0⟩ from by decide]
      dsimp only
      rw [if_pos (by decide : pyTrunc (⟨1, 0⟩ : PyFloat) ≠ 2)]
    · simp only [sweepV_measureI]
      rw [show parseFloat "3" = some ⟨3, 0⟩ from by decide]
      dsimp only
      rw [if_pos (by decide : pyTrunc (⟨3, 0⟩ : PyFloat) ≠ 2)]
  · intro h
    simp only [sweepV_measureI]
    rw [h]

/-- Witness for C1 at concrete inputs: status reply `"2"` reaches the first
buffer dump; `"0"`, `"1"`, `"3"` raise the sweep status error; `"abc"`
raises the parse error. -/
theorem C1_sweep_status_check_witness :
    3 ≤ (sweepV_measureI "smua" 0 1 (1/1000) 101 ["2", "1", "1"]).writes.length ∧
    (sweepV_measureI "smua" 0 1 (1/1000) 101 ["0"]).result =
      Except.error (DriverError.sweepErr "0") ∧
    (sweepV_measureI "smua" 0 1 (1/1000) 101 ["1"]).result =
      Except.error (DriverError.sweepErr "1") ∧
    (sweepV_measureI "smua" 0 1 (1/1000) 101 ["3"]).result =
      Except.error (DriverError.sweepErr "3") ∧
    (sweepV_measureI "smua" 0 1 (1/1000) 101 ["abc"]).result =
      Except.error (DriverError.parseErr "abc") :=
  ⟨(C1_sweep_status_check "smua" 0 1 (1/1000) 101 "2" ["1", "1"]).1 ⟨2, 0⟩ (by decide)
      (by simp [PyFloat.val]),
   (C1_sweep_status_check "smua" 0 1 (1/1000) 101 "0" []).2.1 (Or.inl rfl),
   (C1_sweep_status_check "smua" 0 1 (1/1000) 101 "1" []).2.1 (Or.inr (Or.inl rfl)),
   (C1_sweep_status_check "smua" 0 1 (1/1000) 101 "3" []).2.1 (Or.inr (Or.inr rfl)),
   (C1_sweep_status_check "smua" 0 1 (1/1000) 101 "abc" []).2.2 (by decide)⟩

/-- C2 counterexample: with `numPoints = 3 > 2` and well-formed but
short/overlong buffer-dump replies, the call succeeds and returns sequences
of lengths 2 and 3 — not `numPoints` elements each and not equal length.
The code never checks the token counts of the dumps. -/
theorem C2_counterexample :
    (sweepV_measureI "smua" 0 1 (1/1000) 3 ["2", "1, 2", "1, 2, 3"]).result =
      Except.ok ([⟨1, 0⟩, ⟨2, 0⟩], [⟨1, 0⟩, ⟨2, 0⟩, ⟨3, 0⟩]) ∧
    (2 : Nat) < 3 ∧
    ([(⟨1, 0⟩ : PyFloat), ⟨2, 0⟩] : List PyFloat).length ≠ 3 := by decide

/-- C2 amended: provided each buffer-dump reply parses to exactly
`numPoints` values, a successful call returns the two sequences of exactly
`numPoints` elements each, index-aligned with the dump replies; the driver
itself performs no count check, so the lengths of a successful result are
whatever the instrument's replies contained. -/
theorem C2_sweep_lengths (smu : String) (startv stopv stime : ℚ) (npoints : Nat)
    (_hnp : 2 < npoints) (r1 r2 r3 : String) (rest : List String) (f : PyFloat)
    (x y : List PyFloat)
    (h1 : parseFloat r1 = some f) (h2 : pyTrunc f = 2)
    (hx : table_to_np r2 = some x) (hy : table_to_np r3 = some y)
    (hlx : x.length = npoints) (hly : y.length = npoints) :
    (sweepV_measureI smu startv stopv stime npoints (r1 :: r2 :: r3 :: rest)).result =
      Except.ok (x, y) ∧ x.length = npoints ∧ y.length = npoints := by
  simp only [sweepV_measureI]
  rw [h1]
  dsimp only
  rw [if_neg (not_ne_iff.2 h2)]
  rw [hx]
  dsimp only
  rw [hy]
  dsimp only
  exact ⟨rfl, hlx, hly⟩

/-- Witness for the amended C2 at a concrete successful sweep. -/
theorem C2_sweep_lengths_witness :
    (sweepV_measureI "smua" 0 1 (1/1000) 3 ["2", "1, 2, 3", "4, 5, 6"]).result =
      Except.ok ([⟨1, 0⟩, ⟨2, 0⟩, ⟨3, 0⟩], [⟨4, 0⟩, ⟨5, 0⟩, ⟨6, 0⟩]) ∧
    ([(⟨1, 0⟩ : PyFloat), ⟨2, 0⟩, ⟨3, 0⟩] : List PyFloat).length = 3 ∧
    ([(⟨4, 0⟩ : PyFloat), ⟨5, 0⟩, ⟨6, 0⟩] : List PyFloat).length = 3 :=
  C2_sweep_lengths "smua" 0 1 (1/1000) 3 (by decide) "2" "1, 2, 3" "4, 5, 6" []
    ⟨2, 0⟩ _ _ (by decide) (by decide) (by decide) (by decide) (by decide) (by decide)

/-- C3: `sweepVoltageMeasureCurrent(0, 1, 1e-3, 101)` on channel A triggers
`SweepVLinMeasureI(smua, 0.000000e+00, 1.000000e+00, 1.000000e-03, 101)`;
on a status reply denoting 2 it issues exactly the two buffer-dump queries
bounded `(1, 101)`, and nothing else. -/
theorem C3_sweep_scenario :
    (sweepV_measureI "smua" 0 1 (1/1000) 101 ["2", "0", "0"]).writes =
      ["SweepVLinMeasureI(smua, 0.000000e+00, 1.000000e+00, 1.000000e-03, 101)",
       "print(status.measurement.buffer_available.SMUA)",
       "printbuffer(1, 101, smua.nvbuffer1.sourcevalues)",
       "printbuffer(1, 101, smua.nvbuffer1.readings)"] := by
  have f0 : format6e 0 = "0.000000e+00" := by rw [format6e, if_pos rfl]
  have f1 : format6e 1 = "1.000000e+00" := by
    rw [show (1 : ℚ) = ((1000000 : ℕ) : ℚ) * (10 : ℚ) ^ ((0 : Int) - 6) from by norm_num]
    rw [format6e_exact 1000000 0 (by norm_num) (by norm_num)]
    decide
  have f3 : format6e (1/1000) = "1.000000e-03" := by
    rw [show (1/1000 : ℚ) = ((1000000 : ℕ) : ℚ) * (10 : ℚ) ^ ((-3 : Int) - 6) from by norm_num]
    rw [format6e_exact 1000000 (-3) (by norm_num) (by norm_num)]
    decide
  simp only [sweepV_measureI]
  rw [show parseFloat "2" = some ⟨2, 0⟩ from by decide]
  dsimp only
  rw [if_neg (by decide : ¬(pyTrunc (⟨2, 0⟩ : PyFloat) ≠ 2))]
  rw [show table_to_np "0" = some [⟨0, 0⟩] from by decide]
  dsimp only
  rw [f0, f1, f3]
  decide

/-- C4: every setter embeds the setpoint into its command string formatted
by `format6e`, the embedding of Python's `%.6e` rule (exponential notation
with a 6-digit mantissa fraction): `sourceV`/`sourceI` in their third
command, the current- and voltage-limit setters in their single command. -/
theorem C4_setpoint_formatting (smu : String) (v : ℚ) :
    sourceV smu v = [smu ++ ".source.func = 1", smu ++ ".source.output = 1",
      smu ++ ".source.levelv = " ++ format6e v] ∧
    sourceI smu v = [smu ++ ".source.func = 0", smu ++ ".source.output = 1",
      smu ++ ".source.leveli = " ++ format6e v] ∧
    IlimitSet smu v = [smu ++ ".source.limiti = " ++ format6e v] ∧
    VlimitSet smu v = [smu ++ ".source.limitv = " ++ format6e v] ∧
    (∃ f : PyFloat, parseFloat (format6e v) = some f ∧ f.val = format6eVal v) :=
  ⟨rfl, rfl, rfl, rfl, parseFloat_format6e v⟩

/-- C5: formatting any setpoint with the 6-digit exponential rule and
parsing the string back yields a value within half a unit of the seventh
significant digit of the original — relative error at most `1 / 2000000`,
i.e. agreement to 6 significant digits. -/
theorem C5_format_roundtrip (x : ℚ) :
    ∃ f : PyFloat, parseFloat (format6e x) = some f ∧
      f.val = format6eVal x ∧ |f.val - x| ≤ |x| / 2000000 := by
  obtain ⟨f, hp, hv⟩ := parseFloat_format6e x
  refine ⟨f, hp, hv, ?_⟩
  rw [hv]
  exact format6eVal_close x

/-- C6: `table_to_np` splits on the literal separator `", "` and converts
each token with `float`: the example reply denotes `[1.0, 2.0, 3.0]` in
order; any input with an unparsable token yields the parse failure instead
of a sequence; and every successful parse converts exactly the split
tokens, in order. -/
theorem C6_table_to_np_parsing :
    Option.map (List.map PyFloat.val)
        (table_to_np "1.000000e+00, 2.000000e+00, 3.000000e+00") =
      some [1, 2, 3] ∧
    table_to_np "1.0, abc, 3.0" = none ∧
    (∀ table : String, (∃ t ∈ splitCS table.data, parsePyFloatL t = none) →
      table_to_np table = none) ∧
    (∀ (table : String) (l : List PyFloat), table_to_np table = some l →
      (splitCS table.data).map parsePyFloatL = l.map some) := by
  refine ⟨?_, by decide, ?_, ?_⟩
  · rw [show table_to_np "1.000000e+00, 2.000000e+00, 3.000000e+00" =
      some [⟨1000000, -6⟩, ⟨2000000, -6⟩, ⟨3000000, -6⟩] from by decide]
    simp only [Option.map_some', List.map_cons, List.map_nil, PyFloat.val]
    norm_num
  · intro table ht
    exact parseAll_none _ ht
  · intro table l h
    exact (parseAll_some_iff _ _).1 h

/-- Witness for C6 at concrete inputs: a malformed token fails the whole
conversion, and a successful conversion maps the split tokens one-to-one. -/
theorem C6_table_to_np_parsing_witness :
    table_to_np "2, x" = none ∧
    (splitCS ("7, 8".data)).map parsePyFloatL = [⟨7, 0⟩, ⟨8, 0⟩].map some :=
  ⟨(C6_table_to_np_parsing.2.2.1 "2, x" (by decide)),
   (C6_table_to_np_parsing.2.2.2 "7, 8" [⟨7, 0⟩, ⟨8, 0⟩] (by decide))⟩

/-- C7: `sourceI` and `sourceV` each issue exactly three commands, in the
order select-source-function, enable-output, set-level, with no dependence
on the channel's prior state (the trace functions take no state); under the
spec's instrument state machine, running either trace from any state —
including `ON(mode=V)` — leaves the channel `ON` with the newly selected
mode, with no intervening `off()` required. -/
theorem C7_source_mode_switch (smu : String) (i v : ℚ) (st : ChannelState) :
    sourceI smu i = [smu ++ ".source.func = 0", smu ++ ".source.output = 1",
      smu ++ ".source.leveli = " ++ format6e i] ∧
    sourceV smu v = [smu ++ ".source.func = 1", smu ++ ".source.output = 1",
      smu ++ ".source.levelv = " ++ format6e v] ∧
    applyCmds smu st (sourceI smu i) = ⟨SrcMode.curr, true⟩ ∧
    applyCmds smu st (sourceV smu v) = ⟨SrcMode.volt, true⟩ := by
  refine ⟨rfl, rfl, ?_, ?_⟩
  · simp only [applyCmds, sourceI, List.foldl_cons, List.foldl_nil]
    rw [applyCmd_func0, applyCmd_output1,
      applyCmd_setter smu _ ".source.leveli = " (format6e i) (by decide) (by decide)]
  · simp only [applyCmds, sourceV, List.foldl_cons, List.foldl_nil]
    rw [applyCmd_func1, applyCmd_output1,
      applyCmd_setter smu _ ".source.levelv = " (format6e v) (by decide) (by decide)]

/-- C8: `off` writes exactly one output-disable command, with mode value 2
when `highz` is set and 0 otherwise, and the flag defaults to `False`. -/
theorem C8_off_modes (smu : String) (highz : Bool) :
    off smu true = [smu ++ ".source.output = 2"] ∧
    off smu false = [smu ++ ".source.output = 0"] ∧
    off smu = off smu false ∧
    (off smu highz).length = 1 := by
  refine ⟨?_, ?_, rfl, by cases highz <;> rfl⟩
  · show [smu ++ ".source.output = " ++ natStr 2] = [smu ++ ".source.output = 2"]
    rw [strAppend_assoc,
      show (".source.output = " ++ natStr 2 : String) = ".source.output = 2" from by decide]
  · show [smu ++ ".source.output = " ++ natStr 0] = [smu ++ ".source.output = 0"]
    rw [strAppend_assoc,
      show (".source.output = " ++ natStr 0 : String) = ".source.output = 0" from by decide]

/-- C9: `get_VISA_resources` returns the enumerated address list with the
first address carrying the USB bus prefix moved to the front (a
permutation of the input, the promoted head matching `"USB0"`); a list
with no USB-prefixed address is returned unchanged. -/
theorem C9_usb_promotion (l : List String) :
    (∀ v, l.find? usbMatch = some v →
      get_VISA_resources l = v :: l.erase v ∧ usbMatch v = true ∧
      (get_VISA_resources l).Perm l) ∧
    (l.find? usbMatch = none → get_VISA_resources l = l) := by
  constructor
  · intro v hv
    have hm : v ∈ l := List.mem_of_find?_eq_some hv
    refine ⟨by simp [get_VISA_resources, hv], List.find?_some hv, ?_⟩
    rw [show get_VISA_resources l = v :: l.erase v from by simp [get_VISA_resources, hv]]
    exact (List.perm_cons_erase hm).symm
  · intro h
    simp [get_VISA_resources, h]

/-- Witness for C9: a USB address is promoted past a GPIB address, and a
list without USB addresses is unchanged. -/
theorem C9_usb_promotion_witness :
    get_VISA_resources ["GPIB0::9", "USB0::a", "USB0::b"] =
      ["USB0::a", "GPIB0::9", "USB0::b"] ∧
    get_VISA_resources ["GPIB0::9"] = ["GPIB0::9"] :=
  ⟨(((C9_usb_promotion ["GPIB0::9", "USB0::a", "USB0::b"]).1 "USB0::a"
      (by decide)).1).trans (by decide),
   (C9_usb_promotion ["GPIB0::9"]).2 (by decide)⟩

/-- C10: when the status reply fails the check — `float()` fails, or the
truncated value differs from 2 — the sweep raises with exactly the two
commands written (trigger and status query) and exactly one read
performed: neither buffer dump is issued and no data is returned. -/
theorem C10_error_branch (smu : String) (startv stopv stime : ℚ) (npoints : Nat)
    (r : String) (rest : List String)
    (h : parseFloat r = none ∨ ∃ f, parseFloat r = some f ∧ pyTrunc f ≠ 2) :
    (sweepV_measureI smu startv stopv stime npoints (r :: rest)).writes =
      ["SweepVLinMeasureI(" ++ smu ++ ", " ++ format6e startv ++ ", " ++
        format6e stopv ++ ", " ++ format6e stime ++ ", " ++ natStr npoints ++ ")",
       "print(status.measurement.buffer_available." ++ upperStr smu ++ ")"] ∧
    (sweepV_measureI smu startv stopv stime npoints (r :: rest)).reads = 1 ∧
    ((sweepV_measureI smu startv stopv stime npoints (r :: rest)).result =
        Except.error (DriverError.parseErr r) ∨
      (sweepV_measureI smu startv stopv stime npoints (r :: rest)).result =
        Except.error (DriverError.sweepErr r)) := by
  rcases h with hn | ⟨f, hf, hne⟩
  · simp only [sweepV_measureI]
    rw [hn]
    exact ⟨rfl, rfl, Or.inl rfl⟩
  · simp only [sweepV_measureI]
    rw [hf]
    dsimp only
    rw [if_pos hne]
    exact ⟨rfl, rfl, Or.inr rfl⟩

/-- Witness for C10 at the concrete failing replies `"0"` (status 0) and
`"zz"` (unparsable). -/
theorem C10_error_branch_witness :
    (sweepV_measureI "smua" 0 1 (1/1000) 101 ["0"]).writes =
      ["SweepVLinMeasureI(" ++ "smua" ++ ", " ++ format6e 0 ++ ", " ++
        format6e 1 ++ ", " ++ format6e (1/1000) ++ ", " ++ natStr 101 ++ ")",
       "print(status.measurement.buffer_available." ++ upperStr "smua" ++ ")"] ∧
    (sweepV_measureI "smua" 0 1 (1/1000) 101 ["0"]).reads = 1 ∧
    ((sweepV_measureI "smua" 0 1 (1/1000) 101 ["0"]).result =
        Except.error (DriverError.parseErr "0") ∨
      (sweepV_measureI "smua" 0 1 (1/1000) 101 ["0"]).result =
        Except.error (DriverError.sweepErr "0")) :=
  C10_error_branch "smua" 0 1 (1/1000) 101 "0" []
    (Or.inr ⟨⟨0, 0⟩, by decide, by decide⟩)

end Keithley2600
